import Mathlib

/-!
Verification of the Lume static-site-generator core against its
natural-language specification.

The development shallowly embeds the relevant parts of the code base:

* the multi-engine `Renderer.render` dispatcher (modelled from the spec,
  since `core/renderer.ts` itself is not part of the corpus; its test
  suite is, and the model is checked against every test vector);
* the `parseDate` front-matter date parser (likewise modelled from the
  spec and checked against its test vectors);
* the compiled-template caches of `LiquidEngine`, `PugEngine` and
  `JsxEngine` (embedded from the plugin sources);
* the CMS watch-bridge `beforeUpdate` listener (from the CMS worker);
* the sequential `lightningCSSBundler` loop, as an event trace;
* the `attr` helper's attribute joining and HTML escaping;
* the lightningcss `version` packing function.

JavaScript `Map` objects are embedded as association lists with the
`mapGet` / `mapSet` / `mapDelete` operations below (insertion order
preserved, at most one entry per key, `set` overwrites in place).
-/

namespace Lume

/-- Embedding of JavaScript `Map.get`: first entry with the given key. -/
def mapGet {α : Type} (m : List (String × α)) (k : String) : Option α :=
  match m.find? (fun p => p.1 == k) with
  | some p => some p.2
  | none => none

/-- Embedding of JavaScript `Map.set`: overwrite the entry in place when the
key is present, append otherwise. -/
def mapSet {α : Type} (m : List (String × α)) (k : String) (v : α) :
    List (String × α) :=
  match m with
  | [] => [(k, v)]
  | (k2, v2) :: rest =>
    if k2 == k then (k, v) :: rest else (k2, v2) :: mapSet rest k v

/-- Embedding of JavaScript `Map.delete`: drop the entries with the given
key (a `Map` holds at most one). -/
def mapDelete {α : Type} (m : List (String × α)) (k : String) :
    List (String × α) :=
  m.filter (fun p => !(p.1 == k))

/-! ## Renderer (spec §4.2) -/

/-- The `templateEngine` context value: a delimited string or an ordered
list of engine names (a single name is the comma-free string case). -/
inductive TemplateEngineField where
  | str (s : String)
  | list (names : List String)

/-- A page's render context, as far as the Renderer inspects it: the
reserved `templateEngine` key (absent when `none`) plus the remaining
string-valued data fields. -/
structure PageContext where
  templateEngine : Option TemplateEngineField
  data : List (String × String)

/-- An engine's `render` capability: content and context in, content out. -/
abbrev EngineTransform := String → PageContext → String

/-- Split a character list on commas (accumulator-based). -/
def splitCommaAux : List Char → List Char → List (List Char)
  | [], acc => [acc.reverse]
  | c :: rest, acc =>
    if c == ',' then acc.reverse :: splitCommaAux rest []
    else splitCommaAux rest (c :: acc)

/-- Strip leading and trailing whitespace from a character list. -/
def trimChars (cs : List Char) : List Char :=
  ((cs.dropWhile Char.isWhitespace).reverse.dropWhile Char.isWhitespace).reverse

/-- Modelled from the spec: `templateEngine` given as a delimited string is
comma-separated with internal whitespace trimmed (§4.2 rule 1).
`core/renderer.ts` is not in the corpus. -/
def splitTemplateEngine (s : String) : List String :=
  (splitCommaAux s.toList []).map (fun cs => String.mk (trimChars cs))

/-- Extension of a filename: the last dot of the name together with
everything after it; empty when the name has no dot. -/
def extname (filename : String) : String :=
  let rev := filename.toList.reverse
  if rev.contains (Char.ofNat 46) then
    String.mk (Char.ofNat 46 :: (rev.takeWhile (fun c => !(c == Char.ofNat 46))).reverse)
  else ""

/-- Modelled from the spec: the ordered engine-name chain of §4.2, first
rule that applies wins.  Rule 1: a present `context.templateEngine` gives
the chain (string form split on commas and trimmed, list form verbatim).
Rule 2: otherwise the chain is the default engine registered for the
filename's extension, or empty (passthrough).  `core/renderer.ts` is not
in the corpus. -/
def resolveChain (defaultFor : String → Option String) (ctx : PageContext)
    (filename : String) : List String :=
  match ctx.templateEngine with
  | some (TemplateEngineField.str s) => splitTemplateEngine s
  | some (TemplateEngineField.list names) => names
  | none =>
    match defaultFor (extname filename) with
    | some name => [name]
    | none => []

/-- One chain step: apply the engine registered under `name`, or pass the
content through unchanged when no engine is registered under that name. -/
def applyStep (engines : String → Option EngineTransform) (name : String)
    (content : String) (ctx : PageContext) : String :=
  match engines name with
  | some t => t content ctx
  | none => content

/-- Modelled from the spec: chain execution of §4.2 — left to right, the
output of step i is the content input of step i+1, the original context is
passed unchanged to every step.  `core/renderer.ts` is not in the corpus. -/
def applyChain (engines : String → Option EngineTransform) :
    List String → String → PageContext → String
  | [], content, _ => content
  | name :: rest, content, ctx =>
    applyChain engines rest (applyStep engines name content ctx) ctx

/-- Modelled from the spec: `Renderer.render` (§4.2) — resolve the engine
name chain from the context and filename, then execute it over the
content.  `core/renderer.ts` is not in the corpus. -/
def render (engines : String → Option EngineTransform)
    (defaultFor : String → Option String) (content : String)
    (ctx : PageContext) (filename : String) : String :=
  applyChain engines (resolveChain defaultFor ctx filename) content ctx

/-- The `.foo` test engine of the engine test suite: appends the context's
`foo` field to the content (JavaScript `content + data.foo`, where an
absent field stringifies as `undefined`). -/
def fooEngine : EngineTransform :=
  fun content ctx => content ++ (mapGet ctx.data "foo").getD "undefined"

/-- The `.upper` test engine of the engine test suite: uppercases the
content. -/
def upperEngine : EngineTransform :=
  fun content _ => String.mk (content.toList.map Char.toUpper)

/-- The engine registry built by the engine test suite: `foo` and `upper`. -/
def testEngines : String → Option EngineTransform :=
  fun name =>
    if name == "foo" then some fooEngine
    else if name == "upper" then some upperEngine
    else none

/-- The default-engine-per-extension table built by the engine test suite:
`.foo` files default to engine `foo`, `.upper` files to engine `upper`. -/
def testDefaultFor : String → Option String :=
  fun ext =>
    if ext == ".foo" then some "foo"
    else if ext == ".upper" then some "upper"
    else none

/-! ## Front-matter date parsing (spec §4.3)

Dates are embedded as absolute instants: integer seconds since the Unix
epoch.  The host timezone is an explicit parameter `tz` (seconds east of
UTC), so "local" wall-clock fields are those of `instant + tz`. -/

/-- Days since 1970-01-01 of a proleptic-Gregorian civil date (floor
variant of the standard civil-from-days conversion). -/
def daysFromCivil (y m d : Int) : Int :=
  let y2 : Int := y - (if m ≤ 2 then 1 else 0)
  let era : Int := y2.ediv 400
  let yoe : Int := y2 - era * 400
  let doy : Int := ((153 * (m + (if m > 2 then -3 else 9)) + 2).ediv 5) + d - 1
  let doe : Int := yoe * 365 + yoe.ediv 4 - yoe.ediv 100 + doy
  era * 146097 + doe - 719468

/-- Civil date (year, month 1..12, day) of a days-since-epoch count. -/
def civilFromDays (z : Int) : Int × Int × Int :=
  let z2 : Int := z + 719468
  let era : Int := z2.ediv 146097
  let doe : Int := z2 - era * 146097
  let yoe : Int := (doe - doe.ediv 1460 + doe.ediv 36524 - doe.ediv 146096).ediv 365
  let y : Int := yoe + era * 400
  let doy : Int := doe - (365 * yoe + yoe.ediv 4 - yoe.ediv 100)
  let mp : Int := (5 * doy + 2).ediv 153
  let d : Int := doy - (153 * mp + 2).ediv 5 + 1
  let m : Int := mp + (if mp < 10 then 3 else -9)
  (y + (if m ≤ 2 then 1 else 0), m, d)

/-- Seconds since the Unix epoch of a civil date plus a time of day. -/
def epochSeconds (y mo dd hh mm ss : Int) : Int :=
  daysFromCivil y mo dd * 86400 + hh * 3600 + mm * 60 + ss

/-- Wall-clock fields of a local second count: year, zero-based month
index (as JavaScript `Date.getMonth`), day of month, hours, minutes,
seconds. -/
def wallClockOfLocalSeconds (lsec : Int) : Int × Int × Int × Int × Int × Int :=
  let days : Int := lsec.ediv 86400
  let secs : Int := lsec.emod 86400
  let c := civilFromDays days
  (c.1, c.2.1 - 1, c.2.2, secs.ediv 3600, (secs.emod 3600).ediv 60, secs.emod 60)

/-- Local wall-clock fields of an absolute instant under timezone offset
`tz` (seconds east of UTC): the fields JavaScript's `getFullYear`,
`getMonth`, `getDate`, `getHours`, `getMinutes`, `getSeconds` return. -/
def localFields (instant tz : Int) : Int × Int × Int × Int × Int × Int :=
  wallClockOfLocalSeconds (instant + tz)

/-- Numeric value of a decimal digit character, `none` otherwise. -/
def digitVal (c : Char) : Option Nat :=
  if c.isDigit then some (c.toNat - 48) else none

/-- Read exactly two digits off the front of a character list. -/
def read2 : List Char → Option (Nat × List Char)
  | a :: b :: rest => do
    let x ← digitVal a
    let y ← digitVal b
    pure (10 * x + y, rest)
  | _ => none

/-- Read exactly four digits off the front of a character list. -/
def read4 (cs : List Char) : Option (Nat × List Char) := do
  let (h, cs2) ← read2 cs
  let (l, cs3) ← read2 cs2
  pure (100 * h + l, cs3)

/-- Consume one expected character off the front of a character list. -/
def expect (c : Char) : List Char → Option (List Char)
  | x :: rest => if x == c then some rest else none
  | [] => none

/-- Read a punctuated `HH:MM:SS` time of day. -/
def readTime (cs : List Char) : Option ((Nat × Nat × Nat) × List Char) := do
  let (hh, cs2) ← read2 cs
  let cs3 ← expect (Char.ofNat 58) cs2
  let (mm, cs4) ← read2 cs3
  let cs5 ← expect (Char.ofNat 58) cs4
  let (ss, cs6) ← read2 cs5
  pure ((hh, mm, ss), cs6)

/-- Read a four-digit `HHMM` timezone offset, in seconds. -/
def readOffset (cs : List Char) : Option (Int × List Char) := do
  let (oh, cs2) ← read2 cs
  let (om, cs3) ← read2 cs2
  pure ((oh : Int) * 3600 + (om : Int) * 60, cs3)

/-- Modelled from the spec: parsing of the punctuated date forms of §4.3
(`core/utils/date.ts` is not in the corpus).  `YYYY-MM-DD` is local
midnight; `YYYY-MM-DD HH:MM:SS` is local wall-clock time; a `T` form with
`Z` or an explicit `+HHMM` / `-HHMM` offset is an absolute instant. -/
def parsePunctuated (tz : Int) (cs : List Char) : Option Int := do
  let (y, cs2) ← read4 cs
  let cs3 ← expect (Char.ofNat 45) cs2
  let (mo, cs4) ← read2 cs3
  let cs5 ← expect (Char.ofNat 45) cs4
  let (dd, cs6) ← read2 cs5
  match cs6 with
  | [] => pure (epochSeconds (y : Int) (mo : Int) (dd : Int) 0 0 0 - tz)
  | c :: rest =>
    if c == Char.ofNat 32 then do
      let ((hh, mm, ss), rest2) ← readTime rest
      match rest2 with
      | [] => pure (epochSeconds (y : Int) (mo : Int) (dd : Int) (hh : Int) (mm : Int) (ss : Int) - tz)
      | _ => none
    else if c == 'T' then do
      let ((hh, mm, ss), rest2) ← readTime rest
      let base : Int := epochSeconds (y : Int) (mo : Int) (dd : Int) (hh : Int) (mm : Int) (ss : Int)
      match rest2 with
      | ['Z'] => pure base
      | s :: off =>
        if s == '+' then do
          let (o, off2) ← readOffset off
          if off2.isEmpty then pure (base - o) else none
        else if s == Char.ofNat 45 then do
          let (o, off2) ← readOffset off
          if off2.isEmpty then pure (base + o) else none
        else none
      | [] => none
    else none

/-- Modelled from the spec: the compact-form rewrite of §4.3 — `YYYYMMDD`
and `YYYYMMDDTHHMMSSZ` are first rewritten into their punctuated
equivalents (`core/utils/date.ts` is not in the corpus). -/
def rewriteCompact (cs : List Char) : List Char :=
  match cs with
  | [a, b, c, d, e, f, g, h] =>
    if [a, b, c, d, e, f, g, h].all Char.isDigit then
      [a, b, c, d, Char.ofNat 45, e, f, Char.ofNat 45, g, h]
    else cs
  | [a, b, c, d, e, f, g, h, t, i, j, k, l, m, n, z] =>
    if ([a, b, c, d, e, f, g, h, i, j, k, l, m, n].all Char.isDigit
        && t == 'T' && z == 'Z') then
      [a, b, c, d, Char.ofNat 45, e, f, Char.ofNat 45, g, h, 'T',
       i, j, Char.ofNat 58, k, l, Char.ofNat 58, m, n, 'Z']
    else cs
  | _ => cs

/-- Modelled from the spec: `parseDate` of §4.3 — rewrite compact forms
into their punctuated equivalents, then delegate to standard instant
parsing.  `tz` is the host timezone offset in seconds east of UTC;
the result is the absolute instant in seconds since the Unix epoch.
`core/utils/date.ts` is not in the corpus. -/
def parseDate (s : String) (tz : Int) : Option Int :=
  parsePunctuated tz (rewriteCompact s.toList)

/-! ## Engine compiled-template caches

`LiquidEngine` (plugins/liquid.ts), `PugEngine` (plugins/pug.ts) and
`JsxEngine` (plugins/jsx.ts).  The external compilers (`liquid.parse`,
pug `compile`) are opaque; a compiled template is embedded as the record
of the arguments it was compiled from, which is all the cache logic ever
inspects. -/

/-- Result of `liquid.parse(content, posix.join(basePath, filename))`,
embedded as the record of its arguments. -/
structure LiquidTemplate where
  content : String
  path : String
deriving DecidableEq

/-- The compiled-template cache of a `LiquidEngine`. -/
abbrev LiquidCache := List (String × LiquidTemplate)

/-- Embedding of `posix.join(basePath, filename)` as used by the engines
(an opaque path combination; only injectivity in each component is ever
used). -/
def posixJoin (basePath filename : String) : String :=
  basePath ++ "/" ++ filename

/-- The `LiquidEngine.deleteCache` method: `this.cache.delete(file)`. -/
def liquidDeleteCache (cache : LiquidCache) (file : String) : LiquidCache :=
  mapDelete cache file

/-- The `LiquidEngine.getTemplate` method: compile and insert on a cache
miss, then return the cached entry.  Returns the updated cache and the
template that the subsequent `liquid.render` call receives. -/
def liquidGetTemplate (basePath : String) (cache : LiquidCache)
    (content filename : String) : LiquidCache × LiquidTemplate :=
  let fresh : LiquidTemplate := ⟨content, posixJoin basePath filename⟩
  let cache2 := if (mapGet cache filename).isSome then cache
    else mapSet cache filename fresh
  (cache2, (mapGet cache2 filename).getD fresh)

/-- Result of pug `compile(content, options)`, embedded as the record of
its arguments (`file` is the `filename` option, absent for anonymous
compiles). -/
structure PugCompiled where
  content : String
  file : Option String
deriving DecidableEq

/-- The compiled-template cache of a `PugEngine`. -/
abbrev PugCache := List (String × PugCompiled)

/-- The `PugEngine.deleteCache` method: `this.cache.clear()` — it takes no
filename and empties the whole cache. -/
def pugDeleteCache (_cache : PugCache) : PugCache :=
  []

/-- The cache logic of `PugEngine.renderComponent`: no filename compiles
fresh without caching; with a filename, compile and insert on a cache
miss, then apply the cached entry.  Returns the updated cache and the
compiled template that gets applied to the data. -/
def pugRenderComponent (basePath : String) (cache : PugCache)
    (content : String) (filename : Option String) : PugCache × PugCompiled :=
  match filename with
  | none => (cache, ⟨content, none⟩)
  | some f =>
    let fresh : PugCompiled := ⟨content, some (posixJoin basePath f)⟩
    let cache2 := if (mapGet cache f).isSome then cache
      else mapSet cache f fresh
    (cache2, (mapGet cache2 f).getD fresh)

/-- The `JsxEngine.deleteCache` method: a no-op — the engine keeps no
compiled-template cache at all, so its state is embedded as `Unit`. -/
def jsxDeleteCache (state : Unit) : Unit :=
  state

/-! ## CMS watch bridge (cms.ts worker) -/

/-- The `mustReload` predicate of the CMS worker: the changed-file set
contains the normalized site config file or the CMS config file. -/
def mustReload (config cms : String) (files : List String) : Bool :=
  files.contains config || files.contains cms

/-- Outcome of the `beforeUpdate` listener: request a full external
restart (`postMessage reload`) or let the orchestrator rebuild. -/
inductive UpdateAction where
  | reload
  | proceed
deriving DecidableEq

/-- The `beforeUpdate` listener of the CMS worker: post a `reload` message
and return when `mustReload` holds, otherwise fall through so the
orchestrator proceeds with the rebuild. -/
def beforeUpdateListener (config cms : String) (files : List String) :
    UpdateAction :=
  if mustReload config cms files then UpdateAction.reload
  else UpdateAction.proceed

/-! ## lightningcss bundler (plugins/lightningcss.ts)

`lightningCSSBundler` is a `for … of` loop that awaits the bundle of each
page and saves its asset before moving to the next page; its execution is
embedded as the event trace that sequential loop produces. -/

/-- One observable event of the bundler loop, tagged with the zero-based
position of the page in the processed list. -/
inductive BundleEvent where
  | bundleStart (page : Nat)
  | assetSaved (page : Nat)
deriving DecidableEq

/-- Events of the bundler loop over the remaining files, the next file
sitting at position `i`: each iteration starts the bundle, saves the
asset, and only then moves on. -/
def bundlerEventsFrom (i : Nat) : List String → List BundleEvent
  | [] => []
  | _ :: rest =>
    BundleEvent.bundleStart i :: BundleEvent.assetSaved i ::
      bundlerEventsFrom (i + 1) rest

/-- The execution trace of `lightningCSSBundler` over a list of files. -/
def lightningCSSBundlerTrace (files : List String) : List BundleEvent :=
  bundlerEventsFrom 0 files

/-! ## Attribute helpers (plugins/attributes.ts)

`attr` funnels every input through `handleAttributes` into a `Map` whose
values are either plain JavaScript values or the internal class `Set`,
and `joinAttributes` turns that map into the final string.  The value
universe is embedded below; JavaScript numbers are outside it (a number
value makes `escape` throw, exactly like the other non-string leaves,
which the embedding reports as `PieceResult.error`). -/

/-- A JavaScript value as the attribute helpers dispatch on it. -/
inductive JsValue where
  | undef
  | nil
  | bool (b : Bool)
  | str (s : String)
  | list (xs : List JsValue)
  | obj (fields : List (String × JsValue))

/-- A value stored in the attribute `Map`: a plain value, or the class
`Set` the `class` key accumulates (embedded as its insertion-ordered
element list). -/
inductive AttrStored where
  | val (v : JsValue)
  | classSet (cs : List String)

/-- Per-character part of `escape`: the five HTML-special characters map
to their entities, every other character stands for itself (the global
regex replace of attributes.ts visits each character once). -/
def escapeChar (c : Char) : List Char :=
  if c == '&' then "&amp;".toList
  else if c == '<' then "&lt;".toList
  else if c == '>' then "&gt;".toList
  else if c == Char.ofNat 34 then "&#34;".toList
  else if c == Char.ofNat 39 then "&#39;".toList
  else [c]

/-- Character-list form of `escape`. -/
def escapeList : List Char → List Char
  | [] => []
  | c :: rest => escapeChar c ++ escapeList rest

/-- The `escape` function of attributes.ts: replace every occurrence of
`&`, `<`, `>`, `'`, `"` by its HTML entity. -/
def escape (value : String) : String :=
  String.mk (escapeList value.toList)

/-- One right-to-left step of the entity decoder: an ampersand arriving in
front of a decoded tail that starts with an entity tail collapses the
entity back into its character; anything else is prepended verbatim. -/
def unescapeStep (c : Char) (acc : List Char) : List Char :=
  if c == '&' then
    match acc with
    | a :: b :: d :: rest =>
      if a == 'l' && b == 't' && d == ';' then '<' :: rest
      else if a == 'g' && b == 't' && d == ';' then '>' :: rest
      else
        match rest with
        | e :: r2 =>
          if a == 'a' && b == 'm' && d == 'p' && e == ';' then '&' :: r2
          else if a == '#' && b == '3' && d == '4' && e == ';' then Char.ofNat 34 :: r2
          else if a == '#' && b == '3' && d == '9' && e == ';' then Char.ofNat 39 :: r2
          else c :: acc
        | [] => c :: acc
    | _ => c :: acc
  else c :: acc

/-- Entity decoder: turns the five entities `escape` emits back into their
characters, leaving every other character alone.  Used to state that
`escape` loses nothing and replaces every special character. -/
def unescapeList (cs : List Char) : List Char :=
  cs.foldr unescapeStep []

/-- What one map entry contributes to the output of `joinAttributes`:
nothing (`undefined` / `null` / `false`, and the empty class set), one
piece (bare name for `true`, `name="escaped value"` for strings and
non-empty class sets), or a thrown `TypeError` (`escape` called on a
non-string: a list or plain object value has no `replace` method). -/
inductive PieceResult where
  | skip
  | piece (s : String)
  | error
deriving DecidableEq

/-- The body of the `joinAttributes` loop for one `[name, value]` entry. -/
def attrPieceOf (name : String) : AttrStored → PieceResult
  | AttrStored.val JsValue.undef => PieceResult.skip
  | AttrStored.val JsValue.nil => PieceResult.skip
  | AttrStored.val (JsValue.bool false) => PieceResult.skip
  | AttrStored.val (JsValue.bool true) => PieceResult.piece name
  | AttrStored.classSet cs =>
    if cs.isEmpty then PieceResult.skip
    else PieceResult.piece (name ++ "=\"" ++ escape (String.intercalate " " cs) ++ "\"")
  | AttrStored.val (JsValue.str s) =>
    PieceResult.piece (name ++ "=\"" ++ escape s ++ "\"")
  | AttrStored.val (JsValue.list _) => PieceResult.error
  | AttrStored.val (JsValue.obj _) => PieceResult.error

/-- The pieces pushed by the `joinAttributes` loop, in map order; `none`
when some entry throws. -/
def collectPieces : List (String × AttrStored) → Option (List String)
  | [] => some []
  | (n, v) :: rest =>
    match attrPieceOf n v with
    | PieceResult.error => none
    | PieceResult.skip => collectPieces rest
    | PieceResult.piece p => (collectPieces rest).map (fun ps => p :: ps)

/-- The `joinAttributes` function of attributes.ts: the collected pieces
joined with single spaces (`none` models the thrown `TypeError`). -/
def joinAttributes (attrs : List (String × AttrStored)) : Option String :=
  (collectPieces attrs).map (fun ps => String.intercalate " " ps)

/-- Engines whose transforms read only the data fields of the context,
never the reserved `templateEngine` key (every engine in the corpus does
so; the test engines read only `data.foo`). -/
def DataOnlyEngines (engines : String → Option EngineTransform) : Prop :=
  ∀ name t, engines name = some t →
    ∀ content te1 te2 d, t content ⟨te1, d⟩ = t content ⟨te2, d⟩

/-! ## lightningcss version packing (plugins/lightningcss.ts) -/

/-- The `version` function of plugins/lightningcss.ts:
`(major << 16) | (minor << 8) | patch` (JavaScript 32-bit integer
operators; on the 24-bit range used here `ToInt32` is the identity).
The source defaults `minor` and `patch` to `0`. -/
def version (major minor patch : Nat) : Nat :=
  ((major <<< 16) ||| (minor <<< 8)) ||| patch

/-! ## Helper lemmas -/

theorem applyChain_eq_foldl (engines : String → Option EngineTransform)
    (chain : List String) (content : String) (ctx : PageContext) :
    applyChain engines chain content ctx
      = chain.foldl (fun acc name => applyStep engines name acc ctx) content := by
  induction chain generalizing content with
  | nil => rfl
  | cons name rest ih => simp [applyChain, List.foldl_cons, ih]

theorem applyChain_ctx_irrelevant (engines : String → Option EngineTransform)
    (h : DataOnlyEngines engines) (chain : List String) (content : String)
    (te1 te2 : Option TemplateEngineField) (d : List (String × String)) :
    applyChain engines chain content ⟨te1, d⟩
      = applyChain engines chain content ⟨te2, d⟩ := by
  induction chain generalizing content with
  | nil => rfl
  | cons name rest ih =>
    simp only [applyChain]
    have hstep : applyStep engines name content ⟨te1, d⟩
        = applyStep engines name content ⟨te2, d⟩ := by
      unfold applyStep
      cases he : engines name with
      | none => rfl
      | some t => exact h name t he content te1 te2 d
    rw [hstep]
    exact ih _

theorem testEngines_dataOnly : DataOnlyEngines testEngines := by
  intro name t h content te1 te2 d
  unfold testEngines at h
  by_cases h1 : name == "foo"
  · rw [if_pos h1] at h
    cases h
    rfl
  · rw [if_neg h1] at h
    by_cases h2 : name == "upper"
    · rw [if_pos h2] at h
      cases h
      rfl
    · rw [if_neg h2] at h
      cases h

/-- Validation of the renderer model against the five render calls of the
engine test suite (src test file, `Engines` test): default dispatch by
extension, passthrough on an unknown extension, and the three
`templateEngine` overrides. -/
theorem renderer_matches_engine_test_suite :
    render testEngines testDefaultFor "content"
        ⟨none, [("foo", "bar")]⟩ "foo.foo" = "contentbar"
    ∧ render testEngines testDefaultFor "content"
        ⟨none, [("foo", "bar")]⟩ "foo.not_found" = "content"
    ∧ render testEngines testDefaultFor "content"
        ⟨none, [("foo", "bar")]⟩ "foo.upper" = "CONTENT"
    ∧ render testEngines testDefaultFor "content"
        ⟨some (TemplateEngineField.str "foo"), [("foo", "bar")]⟩ "foo.upper"
      = "contentbar"
    ∧ render testEngines testDefaultFor "content"
        ⟨some (TemplateEngineField.list ["foo", "upper"]), [("foo", "bar")]⟩
        "foo.not_found" = "CONTENTBAR"
    ∧ render testEngines testDefaultFor "content"
        ⟨some (TemplateEngineField.str "upper,foo"), [("foo", "bar")]⟩
        "foo.not_found" = "CONTENTbar" := by
  decide

/-! ## Claim C1 -/

/-- C1: for every engine registry, content, data fields and engine-name
chain, `Renderer.render` with a list-valued `templateEngine` equals the
left fold of the content through the chain's steps, where each step
applies the engine registered under the name (the identity when no engine
is registered under it) and receives the unchanged original context; an
unregistered name in a chain is the identity step; in particular the chain
`["foo","upper"]` over content `"content"` with `{foo:"bar"}` yields
`"CONTENTBAR"` and the reverse chain `["upper","foo"]` yields
`"CONTENTbar"`. -/
theorem c1_render_chain_foldl :
    (∀ (engines : String → Option EngineTransform)
       (defaultFor : String → Option String) (content : String)
       (d : List (String × String)) (chain : List String) (filename : String),
       render engines defaultFor content
           ⟨some (TemplateEngineField.list chain), d⟩ filename
         = chain.foldl
             (fun acc name =>
               applyStep engines name acc
                 ⟨some (TemplateEngineField.list chain), d⟩)
             content)
    ∧ (∀ (content : String) (d : List (String × String)) (filename : String),
       render testEngines testDefaultFor content
           ⟨some (TemplateEngineField.list ["missing"]), d⟩ filename = content)
    ∧ render testEngines testDefaultFor "content"
        ⟨some (TemplateEngineField.list ["foo", "upper"]), [("foo", "bar")]⟩
        "foo.not_found" = "CONTENTBAR"
    ∧ render testEngines testDefaultFor "content"
        ⟨some (TemplateEngineField.list ["upper", "foo"]), [("foo", "bar")]⟩
        "foo.not_found" = "CONTENTbar" := by
  refine ⟨?_, ?_, by decide, by decide⟩
  · intro engines defaultFor content d chain filename
    exact applyChain_eq_foldl engines chain content _
  · intro content d filename
    rfl

/-! ## Claim C2 -/

/-- C2: for every content and context without a `templateEngine` key, and
every filename whose extension has no registered default engine,
`Renderer.render` returns the content unchanged (empty chain,
passthrough). -/
theorem c2_render_passthrough (engines : String → Option EngineTransform)
    (defaultFor : String → Option String) (content : String)
    (d : List (String × String)) (filename : String)
    (h : defaultFor (extname filename) = none) :
    render engines defaultFor content ⟨none, d⟩ filename = content := by
  simp [render, resolveChain, h, applyChain]

/-- Witness for C2 at the test registry and the unknown extension
`.not_found` of the engine test suite. -/
theorem c2_render_passthrough_witness :
    testDefaultFor (extname "foo.not_found") = none
    ∧ render testEngines testDefaultFor "content"
        ⟨none, [("foo", "bar")]⟩ "foo.not_found" = "content" :=
  ⟨by decide,
   c2_render_passthrough testEngines testDefaultFor "content" [("foo", "bar")]
     "foo.not_found" (by decide)⟩

/-! ## Claim C3 -/

/-- C3: for every content, data fields and filename, `Renderer.render`
with `templateEngine` given as a comma-separated string (internal
whitespace trimmed) returns the same result as with the equivalent
ordered list of engine names, for every engine registry whose transforms
read only the context's data fields (the two context arguments
necessarily differ in the `templateEngine` field itself). -/
theorem c3_templateEngine_string_list_equiv
    (engines : String → Option EngineTransform)
    (defaultFor : String → Option String) (content : String)
    (d : List (String × String)) (s : String) (names : List String)
    (filename : String) (hdata : DataOnlyEngines engines)
    (hs : splitTemplateEngine s = names) :
    render engines defaultFor content
        ⟨some (TemplateEngineField.str s), d⟩ filename
      = render engines defaultFor content
          ⟨some (TemplateEngineField.list names), d⟩ filename := by
  have h1 : resolveChain defaultFor ⟨some (TemplateEngineField.str s), d⟩ filename
      = names := by
    simp [resolveChain, hs]
  have h2 : resolveChain defaultFor ⟨some (TemplateEngineField.list names), d⟩ filename
      = names := by
    simp [resolveChain]
  unfold render
  rw [h1, h2]
  exact applyChain_ctx_irrelevant engines hdata names content _ _ d

/-- Witness for C3: `templateEngine "upper,foo"` behaves exactly like
`["upper","foo"]` on the test registry. -/
theorem c3_templateEngine_string_list_equiv_witness :
    DataOnlyEngines testEngines
    ∧ splitTemplateEngine "upper,foo" = ["upper", "foo"]
    ∧ render testEngines testDefaultFor "content"
        ⟨some (TemplateEngineField.str "upper,foo"), [("foo", "bar")]⟩
        "foo.not_found"
      = render testEngines testDefaultFor "content"
          ⟨some (TemplateEngineField.list ["upper", "foo"]), [("foo", "bar")]⟩
          "foo.not_found" :=
  ⟨testEngines_dataOnly, by decide,
   c3_templateEngine_string_list_equiv testEngines testDefaultFor "content"
     [("foo", "bar")] "upper,foo" ["upper", "foo"] "foo.not_found"
     testEngines_dataOnly (by decide)⟩

/-! ## Claim C5 -/

/-- Validation of the date-parser model against the six vectors of the
renderer-preparation test suite (src test file, `Prepare page` test),
which ran with a UTC host timezone (`tz = 0`). -/
theorem dateParser_matches_test_suite :
    (parseDate "2020-01-01" 0).map (fun i => localFields i 0)
      = some (2020, 0, 1, 0, 0, 0)
    ∧ (parseDate "2021-01-01 03:10:10" 0).map (fun i => localFields i 0)
      = some (2021, 0, 1, 3, 10, 10)
    ∧ (parseDate "2021-01-01T03:10:10Z" 0).map (fun i => localFields i 0)
      = some (2021, 0, 1, 3, 10, 10)
    ∧ (parseDate "2021-01-01T03:10:10-0700" 0).map (fun i => localFields i 0)
      = some (2021, 0, 1, 10, 10, 10)
    ∧ (parseDate "20210101" 0).map (fun i => localFields i 0)
      = some (2021, 0, 1, 0, 0, 0)
    ∧ (parseDate "20210101T031010Z" 0).map (fun i => localFields i 0)
      = some (2021, 0, 1, 3, 10, 10) := by
  exact ⟨by decide, by decide, by decide, by decide, by decide, by decide⟩

/-- C5: under every host timezone offset, `parseDate` maps `"2020-01-01"`
to local midnight of Jan 1 2020 (`getFullYear` 2020, `getMonth` 0,
`getDate` 1, 00:00:00); maps `"2021-01-01 03:10:10"` to that local
wall-clock time; parses `"2021-01-01T03:10:10Z"` and the compact
`"20210101T031010Z"` to the same absolute instant and `"20210101"` the
same as `"2021-01-01"` (compact forms are rewritten to their punctuated
equivalent first); and parses `"2021-01-01T03:10:10-0700"` to the instant
7 hours, i.e. `7 * 3600` seconds, after that of `"2021-01-01T03:10:10Z"`. -/
theorem c5_parseDate_examples (tz : Int) :
    (parseDate "2020-01-01" tz).map (fun i => localFields i tz)
      = some (2020, 0, 1, 0, 0, 0)
    ∧ (parseDate "2021-01-01 03:10:10" tz).map (fun i => localFields i tz)
      = some (2021, 0, 1, 3, 10, 10)
    ∧ parseDate "2021-01-01T03:10:10Z" tz = parseDate "20210101T031010Z" tz
    ∧ parseDate "20210101" tz = parseDate "2021-01-01" tz
    ∧ parseDate "2021-01-01T03:10:10-0700" tz
      = (parseDate "2021-01-01T03:10:10Z" tz).map (fun i => i + 7 * 3600) := by
  refine ⟨?_, ?_, rfl, rfl, rfl⟩
  · have h1 : parseDate "2020-01-01" tz
        = some (epochSeconds 2020 1 1 0 0 0 - tz) := rfl
    have h2 : epochSeconds 2020 1 1 0 0 0 = 1577836800 := by decide
    rw [h1, h2]
    show some (localFields (1577836800 - tz) tz) = some (2020, 0, 1, 0, 0, 0)
    unfold localFields
    have h3 : (1577836800 : Int) - tz + tz = 1577836800 := by ring
    rw [h3]
    decide
  · have h1 : parseDate "2021-01-01 03:10:10" tz
        = some (epochSeconds 2021 1 1 3 10 10 - tz) := rfl
    have h2 : epochSeconds 2021 1 1 3 10 10 = 1609470610 := by decide
    rw [h1, h2]
    show some (localFields (1609470610 - tz) tz) = some (2021, 0, 1, 3, 10, 10)
    unfold localFields
    have h3 : (1609470610 : Int) - tz + tz = 1609470610 := by ring
    rw [h3]
    decide

/-! ## Claim C6 -/

/-- C6: the CMS watch bridge's `beforeUpdate` listener requests a full
external restart (posts a `reload` message) if and only if the changed
file set carried by the event contains the top-level site config file or
the CMS config file; for every other changed set it lets the orchestrator
proceed with the rebuild. -/
theorem c6_beforeUpdate_reload_iff (config cms : String)
    (files : List String) :
    (beforeUpdateListener config cms files = UpdateAction.reload
      ↔ config ∈ files ∨ cms ∈ files)
    ∧ (beforeUpdateListener config cms files = UpdateAction.proceed
      ↔ ¬(config ∈ files ∨ cms ∈ files)) := by
  have hmr : mustReload config cms files = true
      ↔ config ∈ files ∨ cms ∈ files := by
    simp [mustReload, List.contains, List.elem_iff]
  constructor
  · constructor
    · intro h
      by_contra hc
      have hf : mustReload config cms files = false := by
        cases hb : mustReload config cms files
        · rfl
        · exact absurd (hmr.mp hb) hc
      unfold beforeUpdateListener at h
      rw [hf] at h
      exact absurd h (by decide)
    · intro h
      unfold beforeUpdateListener
      rw [hmr.mpr h]
      rfl
  · constructor
    · intro h
      intro hc
      unfold beforeUpdateListener at h
      rw [hmr.mpr hc] at h
      exact absurd h (by decide)
    · intro h
      have hf : mustReload config cms files = false := by
        cases hb : mustReload config cms files
        · rfl
        · exact absurd (hmr.mp hb) h
      unfold beforeUpdateListener
      rw [hf]
      rfl

/-! ## Claim C7 -/

theorem bundlerEventsFrom_getElem (files : List String) :
    ∀ (i k : Nat), (bundlerEventsFrom i files)[k]? =
      if k < 2 * files.length then
        some (if k % 2 = 0 then BundleEvent.bundleStart (i + k / 2)
              else BundleEvent.assetSaved (i + k / 2))
      else none := by
  induction files with
  | nil => intro i k; simp [bundlerEventsFrom]
  | cons f rest ih =>
    intro i k
    match k with
    | 0 => simp [bundlerEventsFrom]
    | 1 =>
      have h1 : 1 < 2 * (rest.length + 1) := by omega
      simp [bundlerEventsFrom, h1]
    | (k + 2) =>
      simp only [bundlerEventsFrom, List.getElem?_cons_succ, List.length_cons]
      rw [ih (i + 1) k]
      by_cases hk : k < 2 * rest.length
      · have h1 : k + 2 < 2 * (rest.length + 1) := by omega
        rw [if_pos hk, if_pos h1]
        have hm : (k + 2) % 2 = k % 2 := Nat.add_mod_right k 2
        have hd : (k + 2) / 2 = k / 2 + 1 := Nat.add_div_right k (by omega)
        rw [hm, hd]
        have ha : i + 1 + k / 2 = i + (k / 2 + 1) := by omega
        rw [ha]
      · have h1 : ¬ (k + 2 < 2 * (rest.length + 1)) := by omega
        rw [if_neg hk, if_neg h1]

/-- C7: the bundling CSS processor runs strictly sequentially — in the
trace of `lightningCSSBundler` over any page list, the (unique) save of
page `i`'s asset occurs strictly before the (unique) start of page
`i + 1`'s bundle.  (The non-merging per-page transformer is merely
permitted to run across pages in any order; that permission imposes no
constraint to verify.) -/
theorem c7_bundler_sequential (files : List String) (i : Nat)
    (h : i + 1 < files.length) :
    ∃ si sj : Nat, si < sj
      ∧ (lightningCSSBundlerTrace files)[si]? = some (BundleEvent.assetSaved i)
      ∧ (lightningCSSBundlerTrace files)[sj]?
          = some (BundleEvent.bundleStart (i + 1))
      ∧ (∀ k, (lightningCSSBundlerTrace files)[k]?
            = some (BundleEvent.assetSaved i) → k = si)
      ∧ (∀ k, (lightningCSSBundlerTrace files)[k]?
            = some (BundleEvent.bundleStart (i + 1)) → k = sj) := by
  refine ⟨2 * i + 1, 2 * i + 2, by omega, ?_, ?_, ?_, ?_⟩
  · rw [lightningCSSBundlerTrace, bundlerEventsFrom_getElem files 0 (2 * i + 1)]
    have h1 : 2 * i + 1 < 2 * files.length := by omega
    have h2 : (2 * i + 1) % 2 = 1 := by omega
    have h3 : (2 * i + 1) / 2 = i := by omega
    rw [if_pos h1, h2, h3]
    simp
  · rw [lightningCSSBundlerTrace, bundlerEventsFrom_getElem files 0 (2 * i + 2)]
    have h1 : 2 * i + 2 < 2 * files.length := by omega
    have h2 : (2 * i + 2) % 2 = 0 := by omega
    have h3 : (2 * i + 2) / 2 = i + 1 := by omega
    rw [if_pos h1, h2, h3]
    simp
  · intro k hk
    rw [lightningCSSBundlerTrace, bundlerEventsFrom_getElem files 0 k] at hk
    by_cases h1 : k < 2 * files.length
    · rw [if_pos h1] at hk
      by_cases h2 : k % 2 = 0
      · rw [if_pos h2] at hk
        exact absurd (Option.some.inj hk) (by simp)
      · rw [if_neg h2] at hk
        have h3 : 0 + k / 2 = i := by
          have := Option.some.inj hk
          exact (BundleEvent.assetSaved.injEq _ _).mp this
        omega
    · rw [if_neg h1] at hk
      exact absurd hk (by simp)
  · intro k hk
    rw [lightningCSSBundlerTrace, bundlerEventsFrom_getElem files 0 k] at hk
    by_cases h1 : k < 2 * files.length
    · rw [if_pos h1] at hk
      by_cases h2 : k % 2 = 0
      · rw [if_pos h2] at hk
        have h3 : 0 + k / 2 = i + 1 := by
          have := Option.some.inj hk
          exact (BundleEvent.bundleStart.injEq _ _).mp this
        omega
      · rw [if_neg h2] at hk
        exact absurd (Option.some.inj hk) (by simp)
    · rw [if_neg h1] at hk
      exact absurd hk (by simp)

/-- Witness for C7 on a concrete two-page list. -/
theorem c7_bundler_sequential_witness :
    0 + 1 < (["a.css", "b.css"] : List String).length
    ∧ ∃ si sj : Nat, si < sj
      ∧ (lightningCSSBundlerTrace ["a.css", "b.css"])[si]?
          = some (BundleEvent.assetSaved 0)
      ∧ (lightningCSSBundlerTrace ["a.css", "b.css"])[sj]?
          = some (BundleEvent.bundleStart (0 + 1))
      ∧ (∀ k, (lightningCSSBundlerTrace ["a.css", "b.css"])[k]?
            = some (BundleEvent.assetSaved 0) → k = si)
      ∧ (∀ k, (lightningCSSBundlerTrace ["a.css", "b.css"])[k]?
            = some (BundleEvent.bundleStart (0 + 1)) → k = sj) :=
  ⟨by decide, c7_bundler_sequential ["a.css", "b.css"] 0 (by decide)⟩

/-! ## Map lemmas for the cache claims -/

theorem mapGet_mapSet_self {α : Type} (m : List (String × α)) (k : String)
    (v : α) : mapGet (mapSet m k v) k = some v := by
  induction m with
  | nil => simp [mapSet, mapGet, List.find?]
  | cons p rest ih =>
    by_cases h : p.1 == k
    · simp [mapSet, h, mapGet, List.find?]
    · simpa [mapSet, mapGet, h, List.find?] using ih

theorem mapGet_mapDelete_self {α : Type} (m : List (String × α))
    (k : String) : mapGet (mapDelete m k) k = none := by
  induction m with
  | nil => rfl
  | cons p rest ih =>
    by_cases h : p.1 == k
    · simpa [mapDelete, h, List.filter] using ih
    · simpa [mapDelete, mapGet, h, List.filter, List.find?] using ih

theorem mapGet_mapDelete_ne {α : Type} (m : List (String × α))
    (k g : String) (h : g ≠ k) :
    mapGet (mapDelete m k) g = mapGet m g := by
  induction m with
  | nil => rfl
  | cons p rest ih =>
    by_cases h1 : p.1 == k
    · have h2 : (p.1 == g) = false := by
        have : p.1 = k := by simpa using h1
        simp [this, Ne.symm h]
      simp only [mapDelete, List.filter, h1]
      simp only [Bool.not_true]
      rw [show (mapDelete rest k) = List.filter (fun p => !(p.1 == k)) rest from rfl] at ih
      simpa [mapGet, List.find?, h2] using ih
    · simp only [mapDelete, List.filter, h1, Bool.not_false]
      by_cases h2 : p.1 == g
      · simp [mapGet, List.find?, h2]
      · rw [show (mapDelete rest k) = List.filter (fun p => !(p.1 == k)) rest from rfl] at ih
        simpa [mapGet, List.find?, h2] using ih

/-! ## Claim C4 (corrected) -/

/-- Counterexample to C4 as stated: `PugEngine.deleteCache` does not leave
other filenames' cache entries unchanged.  With compiled templates cached
for `a.pug` and `b.pug`, running the engine's `deleteCache` for the
changed file `a.pug` also removes the entry of `b.pug` (the method takes
no filename and clears the whole cache). -/
theorem c4_deleteCache_counterexample :
    ¬ (mapGet (pugDeleteCache
          [("a.pug", PugCompiled.mk "body-a" none),
           ("b.pug", PugCompiled.mk "body-b" none)]) "b.pug"
        = mapGet
            [("a.pug", PugCompiled.mk "body-a" none),
             ("b.pug", PugCompiled.mk "body-b" none)] "b.pug") := by
  decide

/-- C4 (amended): `LiquidEngine.deleteCache f` removes exactly the cache
entry of `f` and leaves every other filename's entry unchanged;
`PugEngine.deleteCache` takes no filename and clears the entire cache
(so the changed file's entry is removed, but so is every other entry);
`JsxEngine.deleteCache` is a no-op on an engine that keeps no
compiled-template cache. -/
theorem c4_deleteCache_amended :
    (∀ (cache : LiquidCache) (f : String),
      mapGet (liquidDeleteCache cache f) f = none)
    ∧ (∀ (cache : LiquidCache) (f g : String), g ≠ f →
      mapGet (liquidDeleteCache cache f) g = mapGet cache g)
    ∧ (∀ (cache : PugCache) (g : String), mapGet (pugDeleteCache cache) g = none)
    ∧ (∀ u : Unit, jsxDeleteCache u = u) :=
  ⟨fun cache f => mapGet_mapDelete_self cache f,
   fun cache f g hg => mapGet_mapDelete_ne cache f g hg,
   fun _ _ => rfl,
   fun _ => rfl⟩

/-- Witness for the amended C4 at a concrete two-entry Liquid cache. -/
theorem c4_deleteCache_amended_witness :
    ("b.liquid" : String) ≠ "a.liquid"
    ∧ mapGet (liquidDeleteCache
          [("a.liquid", LiquidTemplate.mk "ca" "/p/a"),
           ("b.liquid", LiquidTemplate.mk "cb" "/p/b")] "a.liquid") "b.liquid"
      = mapGet
          [("a.liquid", LiquidTemplate.mk "ca" "/p/a"),
           ("b.liquid", LiquidTemplate.mk "cb" "/p/b")] "b.liquid" :=
  ⟨by decide,
   c4_deleteCache_amended.2.1
     [("a.liquid", LiquidTemplate.mk "ca" "/p/a"),
      ("b.liquid", LiquidTemplate.mk "cb" "/p/b")]
     "a.liquid" "b.liquid" (by decide)⟩

/-! ## Claim C8 -/

/-- C8: the Liquid and Pug compiled-template caches are keyed by filename
alone and ignore content.  Starting from a cache with no entry for `f`,
rendering content `c1` caches a template compiled from `c1`; a second
render of different content `c2` under the same filename changes nothing
and still uses the template compiled from `c1`; and thereafter every
render with filename `f` returns the entry compiled on the first call,
whatever content it is given. -/
theorem c8_template_cache_content_insensitive
    (basePath f c1 c2 : String) (lcache : LiquidCache) (pcache : PugCache)
    (hne : c1 ≠ c2) (hl : mapGet lcache f = none)
    (hp : mapGet pcache f = none) :
    ((liquidGetTemplate basePath lcache c1 f).2.content = c1
      ∧ (liquidGetTemplate basePath
          (liquidGetTemplate basePath lcache c1 f).1 c2 f)
        = ((liquidGetTemplate basePath lcache c1 f).1,
           (liquidGetTemplate basePath lcache c1 f).2)
      ∧ ∀ c3, (liquidGetTemplate basePath
          (liquidGetTemplate basePath lcache c1 f).1 c3 f)
        = ((liquidGetTemplate basePath lcache c1 f).1,
           (liquidGetTemplate basePath lcache c1 f).2))
    ∧ ((pugRenderComponent basePath pcache c1 (some f)).2.content = c1
      ∧ (pugRenderComponent basePath
          (pugRenderComponent basePath pcache c1 (some f)).1 c2 (some f))
        = ((pugRenderComponent basePath pcache c1 (some f)).1,
           (pugRenderComponent basePath pcache c1 (some f)).2)
      ∧ ∀ c3, (pugRenderComponent basePath
          (pugRenderComponent basePath pcache c1 (some f)).1 c3 (some f))
        = ((pugRenderComponent basePath pcache c1 (some f)).1,
           (pugRenderComponent basePath pcache c1 (some f)).2)) := by
  have hl1 : liquidGetTemplate basePath lcache c1 f
      = (mapSet lcache f ⟨c1, posixJoin basePath f⟩,
         ⟨c1, posixJoin basePath f⟩) := by
    simp [liquidGetTemplate, hl, mapGet_mapSet_self]
  have hl2 : ∀ c3, liquidGetTemplate basePath
      (mapSet lcache f ⟨c1, posixJoin basePath f⟩) c3 f
      = (mapSet lcache f ⟨c1, posixJoin basePath f⟩,
         ⟨c1, posixJoin basePath f⟩) := by
    intro c3
    simp [liquidGetTemplate, mapGet_mapSet_self]
  have hp1 : pugRenderComponent basePath pcache c1 (some f)
      = (mapSet pcache f ⟨c1, some (posixJoin basePath f)⟩,
         ⟨c1, some (posixJoin basePath f)⟩) := by
    simp [pugRenderComponent, hp, mapGet_mapSet_self]
  have hp2 : ∀ c3, pugRenderComponent basePath
      (mapSet pcache f ⟨c1, some (posixJoin basePath f)⟩) c3 (some f)
      = (mapSet pcache f ⟨c1, some (posixJoin basePath f)⟩,
         ⟨c1, some (posixJoin basePath f)⟩) := by
    intro c3
    simp [pugRenderComponent, mapGet_mapSet_self]
  constructor
  · rw [hl1]
    exact ⟨rfl, hl2 c2, fun c3 => hl2 c3⟩
  · rw [hp1]
    exact ⟨rfl, hp2 c2, fun c3 => hp2 c3⟩

/-- Witness for C8 on empty caches, filename `t.tpl`, contents `"one"` and
`"two"`. -/
theorem c8_template_cache_content_insensitive_witness :
    ("one" : String) ≠ "two"
    ∧ mapGet ([] : LiquidCache) "t.tpl" = none
    ∧ mapGet ([] : PugCache) "t.tpl" = none
    ∧ (((liquidGetTemplate "/s" [] "one" "t.tpl").2.content = "one"
      ∧ (liquidGetTemplate "/s"
          (liquidGetTemplate "/s" [] "one" "t.tpl").1 "two" "t.tpl")
        = ((liquidGetTemplate "/s" [] "one" "t.tpl").1,
           (liquidGetTemplate "/s" [] "one" "t.tpl").2)
      ∧ ∀ c3, (liquidGetTemplate "/s"
          (liquidGetTemplate "/s" [] "one" "t.tpl").1 c3 "t.tpl")
        = ((liquidGetTemplate "/s" [] "one" "t.tpl").1,
           (liquidGetTemplate "/s" [] "one" "t.tpl").2))
    ∧ ((pugRenderComponent "/s" [] "one" (some "t.tpl")).2.content = "one"
      ∧ (pugRenderComponent "/s"
          (pugRenderComponent "/s" [] "one" (some "t.tpl")).1 "two" (some "t.tpl"))
        = ((pugRenderComponent "/s" [] "one" (some "t.tpl")).1,
           (pugRenderComponent "/s" [] "one" (some "t.tpl")).2)
      ∧ ∀ c3, (pugRenderComponent "/s"
          (pugRenderComponent "/s" [] "one" (some "t.tpl")).1 c3 (some "t.tpl"))
        = ((pugRenderComponent "/s" [] "one" (some "t.tpl")).1,
           (pugRenderComponent "/s" [] "one" (some "t.tpl")).2))) :=
  ⟨by decide, rfl, rfl,
   c8_template_cache_content_insensitive "/s" "t.tpl" "one" "two" [] []
     (by decide) rfl rfl⟩

/-! ## Claim C9 -/

theorem unescape_escape (cs : List Char) :
    unescapeList (escapeList cs) = cs := by
  induction cs with
  | nil => rfl
  | cons c rest ih =>
    have hfold : unescapeList (escapeList (c :: rest))
        = List.foldr unescapeStep rest (escapeChar c) := by
      show List.foldr unescapeStep [] (escapeChar c ++ escapeList rest)
          = List.foldr unescapeStep rest (escapeChar c)
      rw [List.foldr_append]
      rw [show List.foldr unescapeStep [] (escapeList rest) = rest from ih]
    rw [hfold]
    by_cases h1 : c = '&'
    · subst h1; simp [escapeChar, unescapeStep]
    · by_cases h2 : c = '<'
      · subst h2; simp [escapeChar, unescapeStep]
      · by_cases h3 : c = '>'
        · subst h3; simp [escapeChar, unescapeStep]
        · by_cases h4 : c = Char.ofNat 34
          · subst h4; simp [escapeChar, unescapeStep]
          · by_cases h5 : c = Char.ofNat 39
            · subst h5; simp [escapeChar, unescapeStep]
            · simp [escapeChar, h1, h2, h3, h4, h5, unescapeStep]

theorem escapeChar_no_specials (c : Char) :
    (escapeChar c).contains '<' = false
    ∧ (escapeChar c).contains '>' = false
    ∧ (escapeChar c).contains (Char.ofNat 39) = false
    ∧ (escapeChar c).contains (Char.ofNat 34) = false := by
  by_cases h1 : c = '&'
  · subst h1; decide
  · by_cases h2 : c = '<'
    · subst h2; decide
    · by_cases h3 : c = '>'
      · subst h3; decide
      · by_cases h4 : c = Char.ofNat 34
        · subst h4; decide
        · by_cases h5 : c = Char.ofNat 39
          · subst h5; decide
          · simp [escapeChar, h1, h2, h3, h4, h5, List.contains]
            exact ⟨Ne.symm h2, Ne.symm h3, Ne.symm h5, Ne.symm h4⟩

theorem contains_append_chars (l1 l2 : List Char) (a : Char) :
    (l1 ++ l2).contains a = (l1.contains a || l2.contains a) := by
  simp [List.contains, List.elem_eq_mem]

theorem escapeList_no_specials (cs : List Char) :
    (escapeList cs).contains '<' = false
    ∧ (escapeList cs).contains '>' = false
    ∧ (escapeList cs).contains (Char.ofNat 39) = false
    ∧ (escapeList cs).contains (Char.ofNat 34) = false := by
  induction cs with
  | nil => decide
  | cons c rest ih =>
    have hc := escapeChar_no_specials c
    refine ⟨?_, ?_, ?_, ?_⟩
    · show (escapeChar c ++ escapeList rest).contains '<' = false
      rw [contains_append_chars, hc.1, ih.1]
      rfl
    · show (escapeChar c ++ escapeList rest).contains '>' = false
      rw [contains_append_chars, hc.2.1, ih.2.1]
      rfl
    · show (escapeChar c ++ escapeList rest).contains (Char.ofNat 39) = false
      rw [contains_append_chars, hc.2.2.1, ih.2.2.1]
      rfl
    · show (escapeChar c ++ escapeList rest).contains (Char.ofNat 34) = false
      rw [contains_append_chars, hc.2.2.2, ih.2.2.2]
      rfl

/-- C9: in the output of the `attr` helper's `joinAttributes`, entries
whose value is `undefined`, `null` or `false` are omitted entirely (they
contribute no piece, and dropping them from the map leaves the collected
pieces unchanged); an entry with value `true` emits the bare attribute
name; a string-valued entry emits `name="v"` with `v` the `escape` of the
value, and a non-empty class set likewise emits the escaped space-joined
classes; `escape` replaces every occurrence of the characters `&`, `<`,
`>`, `'`, `"` by `&amp;`, `&lt;`, `&gt;`, `&#39;`, `&#34;` respectively —
it is losslessly decodable (so each replaced character is recoverable
from its entity), and its output never contains a raw `<`, `>`, `'` or
`"`. -/
theorem c9_attr_escaping :
    (∀ (name : String) (rest : List (String × AttrStored)),
      attrPieceOf name (AttrStored.val JsValue.undef) = PieceResult.skip
      ∧ attrPieceOf name (AttrStored.val JsValue.nil) = PieceResult.skip
      ∧ attrPieceOf name (AttrStored.val (JsValue.bool false)) = PieceResult.skip
      ∧ collectPieces ((name, AttrStored.val JsValue.undef) :: rest)
          = collectPieces rest
      ∧ collectPieces ((name, AttrStored.val JsValue.nil) :: rest)
          = collectPieces rest
      ∧ collectPieces ((name, AttrStored.val (JsValue.bool false)) :: rest)
          = collectPieces rest)
    ∧ (∀ name : String,
      attrPieceOf name (AttrStored.val (JsValue.bool true))
        = PieceResult.piece name)
    ∧ (∀ (name s : String),
      attrPieceOf name (AttrStored.val (JsValue.str s))
        = PieceResult.piece (name ++ "=\"" ++ escape s ++ "\""))
    ∧ (∀ (name c : String) (cs : List String),
      attrPieceOf name (AttrStored.classSet (c :: cs))
        = PieceResult.piece
            (name ++ "=\"" ++ escape (String.intercalate " " (c :: cs)) ++ "\""))
    ∧ (∀ s : String, unescapeList (escape s).toList = s.toList)
    ∧ (∀ s : String,
      ((escape s).toList.contains '<' = false)
      ∧ ((escape s).toList.contains '>' = false)
      ∧ ((escape s).toList.contains (Char.ofNat 39) = false)
      ∧ ((escape s).toList.contains (Char.ofNat 34) = false))
    ∧ (∀ attrs : List (String × AttrStored),
      joinAttributes attrs
        = (collectPieces attrs).map (fun ps => String.intercalate " " ps)) := by
  refine ⟨fun name rest => ⟨rfl, rfl, rfl, rfl, rfl, rfl⟩,
          fun name => rfl,
          fun name s => rfl,
          fun name c cs => rfl,
          fun s => unescape_escape s.toList,
          fun s => escapeList_no_specials s.toList,
          fun attrs => rfl⟩

/-! ## Claim C10 -/

theorem lor_shiftLeft_add (x y k : Nat) (h : y < 2 ^ k) :
    x <<< k ||| y = x * 2 ^ k + y := by
  apply Nat.eq_of_testBit_eq
  intro i
  rw [Nat.testBit_lor, Nat.testBit_shiftLeft, Nat.mul_comm x,
    Nat.testBit_mul_pow_two_add x h]
  rcases Nat.lt_or_ge i k with hik | hik
  · have h1 : ¬ i ≥ k := Nat.not_le.mpr hik
    simp [h1, hik]
  · have hy : y.testBit i = false :=
      Nat.testBit_lt_two_pow
        (Nat.lt_of_lt_of_le h (Nat.pow_le_pow_right (by decide) hik))
    simp [hik, Nat.not_lt.mpr hik, hy]

/-- C10: for all `major`, `minor`, `patch` below 256, `version` returns
the 24-bit packing `major * 65536 + minor * 256 + patch`, and with the
source's default arguments `minor = 0`, `patch = 0` it returns
`major * 65536`. -/
theorem c10_version_packing (a b c : Nat) (ha : a < 256) (hb : b < 256)
    (hc : c < 256) :
    version a b c = a * 65536 + b * 256 + c
    ∧ version a 0 0 = a * 65536 := by
  constructor
  · have h1 : b <<< 8 ||| c = b * 256 + c := by
      have := lor_shiftLeft_add b c 8 (by omega)
      simpa using this
    have h2 : a <<< 16 ||| (b * 256 + c) = a * 65536 + (b * 256 + c) := by
      have := lor_shiftLeft_add a (b * 256 + c) 16 (by omega)
      simpa using this
    calc version a b c = a <<< 16 ||| (b <<< 8 ||| c) := Nat.lor_assoc _ _ _
      _ = a <<< 16 ||| (b * 256 + c) := by rw [h1]
      _ = a * 65536 + (b * 256 + c) := h2
      _ = a * 65536 + b * 256 + c := by omega
  · have h1 : (0 : Nat) <<< 8 ||| 0 = 0 * 256 + 0 := by
      have := lor_shiftLeft_add 0 0 8 (by omega)
      simpa using this
    have h2 : a <<< 16 ||| 0 = a * 65536 + 0 := by
      have := lor_shiftLeft_add a 0 16 (by omega)
      simpa using this
    calc version a 0 0 = a <<< 16 ||| (0 <<< 8 ||| 0) := Nat.lor_assoc _ _ _
      _ = a <<< 16 ||| 0 := by rw [h1]
      _ = a * 65536 := by omega

/-- Witness for C10 at the Chrome target `version 98 1 2` and the default
arguments case `version 98 0 0` used by the plugin's defaults. -/
theorem c10_version_packing_witness :
    (98 < 256 ∧ 1 < 256 ∧ 2 < 256)
    ∧ (version 98 1 2 = 98 * 65536 + 1 * 256 + 2
       ∧ version 98 0 0 = 98 * 65536) :=
  ⟨⟨by decide, by decide, by decide⟩,
   c10_version_packing 98 1 2 (by decide) (by decide) (by decide)⟩

end Lume
